import Mathlib

/-!
Verification of the intercept module of the Bear build-observation tool
(`rust/bear/src/intercept/mod.rs`).

The development embeds the module shallowly: Rust strings become Lean
strings (manipulated through their character lists), paths become UTF-8
strings, the process environment becomes an explicit read-only state, the
filesystem becomes a list of existing paths, and the fallible operations
return `Except` or `Option` values.  External collaborators that are not
part of the source file (the supervise primitive, the wire serializer, the
OS filesystem calls) are modelled from their documented behaviour and
marked as such.
-/

namespace Bear

/-- Environment variable name `KEY_DESTINATION` declared by the intercept
module: the address the reporters send their events to. -/
def KEY_DESTINATION : String := "INTERCEPT_REPORTER_ADDRESS"

/-- Environment variable name `KEY_PRELOAD_PATH` declared by the intercept
module: the dynamic-linker preload list. -/
def KEY_PRELOAD_PATH : String := "LD_PRELOAD"

/-- Accumulator loop of Rust `str::split(c)` over the character list of the
string: pieces are collected in `acc` (reversed) until the separator is hit.
This mirrors the iterator semantics of `split`, which yields one (possibly
empty) piece between every two separator occurrences, one before the first
and one after the last; in particular the empty string yields one empty
piece. -/
def splitChar (c : Char) : List Char → List Char → List (List Char)
  | [], acc => [acc.reverse]
  | x :: xs, acc =>
    if x = c then acc.reverse :: splitChar c xs [] else splitChar c xs (x :: acc)

/-- Embedding of Rust `original.split(c)`: run the accumulator loop with an
empty accumulator. -/
def rustSplit (c : Char) (s : List Char) : List (List Char) :=
  splitChar c s []

/-- Embedding of Rust `Vec::join(sep)` for a single-character separator:
concatenate the pieces with `c` between two consecutive pieces. -/
def rustJoin (c : Char) : List (List Char) → List Char
  | [] => []
  | [x] => x
  | x :: y :: t => x ++ c :: rustJoin c (y :: t)

/-- Embedding of `InterceptEnvironment::insert_to_path` from
`intercept/mod.rs`: split `original` on `:`, keep the entries that differ
from `first`, insert `first` at index 0, and join the entries with `:`. -/
def insert_to_path (original first : String) : String :=
  let paths := (rustSplit ':' original.data).filter (fun it => it ≠ first.data)
  ⟨rustJoin ':' (paths.insertIdx 0 first.data)⟩

/-- The path-insertion algorithm as the specification words it: split
`original` on `:`; remove any entry exactly equal (string match) to `first`;
insert `first` at position 0; rejoin with `:`.  Stated with the library list
operations `List.splitOn`, `List.filter`, `List.insertIdx` and
`List.intercalate`, independently of the Rust-shaped functions above. -/
def insert_to_path_spec (original first : String) : String :=
  ⟨[':'].intercalate
    (((original.data.splitOn ':').filter (fun e => e ≠ first.data)).insertIdx 0
      first.data)⟩

theorem splitChar_eq_go (c : Char) (s acc : List Char) :
    splitChar c s acc = List.splitOnP.go (· == c) s acc := by
  induction s generalizing acc with
  | nil => rfl
  | cons x xs ih =>
    simp only [splitChar, List.splitOnP.go, beq_iff_eq, ih]

theorem rustSplit_eq_splitOn (c : Char) (s : List Char) :
    rustSplit c s = s.splitOn c := by
  rw [rustSplit, splitChar_eq_go]
  rfl

theorem rustJoin_eq_intercalate (c : Char) (ls : List (List Char)) :
    rustJoin c ls = [c].intercalate ls := by
  induction ls with
  | nil => rfl
  | cons x t ih =>
    cases t with
    | nil => simp [rustJoin, List.intercalate]
    | cons y t2 =>
      rw [rustJoin, ih]
      simp [List.intercalate, List.intersperse_cons_cons]

/-- C4: `insert_to_path` implements exactly the algorithm of the spec (split
on `:`, remove the entries string-equal to the inserted one, place the
inserted entry at position 0, rejoin with `:`, preserving the order of the
remaining entries), and satisfies the two quoted examples. -/
theorem insert_to_path_refines_spec :
    (∀ original first : String,
      insert_to_path original first = insert_to_path_spec original first) ∧
    insert_to_path "/a:/b" "/a" = "/a:/b" ∧
    insert_to_path "/b:/c" "/a" = "/a:/b:/c" := by
  refine ⟨fun original first => ?_, by decide, by decide⟩
  simp only [insert_to_path, insert_to_path_spec, rustSplit_eq_splitOn,
    rustJoin_eq_intercalate]

/-- C1 (counterexample): on the empty original value the code does not
return just the inserted entry. -/
theorem insert_to_path_empty_counterexample :
    insert_to_path "" "/a" ≠ "/a" := by
  decide

/-- C1 (amended): on the empty original value and a non-empty inserted
entry, the result is the inserted entry followed by a trailing `:` — the
empty original splits into one empty entry, which is kept and rejoined. -/
theorem insert_to_path_empty (first : String) (h : first ≠ "") :
    insert_to_path "" first = first ++ ":" := by
  have hd : first.data ≠ [] := by
    intro hdata
    exact h (String.ext hdata)
  apply String.ext
  simp [insert_to_path, rustSplit, splitChar, List.insertIdx_zero, hd,
    rustJoin, String.data_append]

/-- C1 (witness for the amended claim): instantiated at the quoted
example input. -/
theorem insert_to_path_empty_witness :
    ("/a" : String) ≠ "" ∧ insert_to_path "" "/a" = "/a" ++ ":" :=
  ⟨by decide, insert_to_path_empty "/a" (by decide)⟩

theorem splitOnP_forall_not {α : Type} (p : α → Bool) (xs : List α) :
    ∀ l ∈ xs.splitOnP p, ∀ a ∈ l, p a = false := by
  induction xs with
  | nil =>
    intro l hl a ha
    rw [List.splitOnP_nil, List.mem_singleton] at hl
    subst hl
    exact absurd ha (List.not_mem_nil a)
  | cons x xs ih =>
    intro l hl a ha
    rw [List.splitOnP_cons] at hl
    by_cases hx : p x = true
    · rw [if_pos hx] at hl
      rcases List.mem_cons.mp hl with h | h
      · subst h
        exact absurd ha (List.not_mem_nil a)
      · exact ih l h a ha
    · rw [if_neg hx] at hl
      cases hsp : xs.splitOnP p with
      | nil => exact absurd hsp (List.splitOnP_ne_nil p xs)
      | cons hd tl =>
        rw [hsp, List.modifyHead_cons] at hl
        rcases List.mem_cons.mp hl with h | h
        · subst h
          rcases List.mem_cons.mp ha with h2 | h2
          · subst h2
            exact Bool.eq_false_iff.mpr hx
          · exact ih hd (hsp ▸ List.mem_cons_self hd tl) a h2
        · exact ih l (hsp ▸ List.mem_cons_of_mem hd h) a ha

/-- No piece produced by the embedded Rust split contains the separator. -/
theorem rustSplit_not_mem (c : Char) (s : List Char) :
    ∀ l ∈ rustSplit c s, c ∉ l := by
  intro l hl hc
  rw [rustSplit_eq_splitOn] at hl
  have h := splitOnP_forall_not (· == c) s l hl c hc
  simp at h

/-- C10: `insert_to_path` is idempotent in the inserted entry, for every
inserted entry that contains no `:` — inserting it a second time removes
exactly the copy the first insertion put at the front and re-inserts it
there. -/
theorem insert_to_path_idem (original first : String) (h : ':' ∉ first.data) :
    insert_to_path (insert_to_path original first) first =
      insert_to_path original first := by
  apply String.ext
  simp only [insert_to_path, List.insertIdx_zero]
  set rest := (rustSplit ':' original.data).filter (fun it => it ≠ first.data)
    with hrest
  have hsplit : rustSplit ':' (rustJoin ':' (first.data :: rest)) =
      first.data :: rest := by
    rw [rustSplit_eq_splitOn, rustJoin_eq_intercalate]
    apply List.splitOn_intercalate
    · intro l hl
      rcases List.mem_cons.mp hl with h2 | h2
      · exact h2 ▸ h
      · exact rustSplit_not_mem ':' original.data l
          (List.mem_of_mem_filter (hrest ▸ h2))
    · exact List.cons_ne_nil _ _
  show rustJoin ':'
      (first.data ::
        (rustSplit ':' (rustJoin ':' (first.data :: rest))).filter
          (fun it => it ≠ first.data)) =
    rustJoin ':' (first.data :: rest)
  rw [hsplit, List.filter_cons]
  simp only [ne_eq, not_true_eq_false, decide_False, if_false]
  congr 1
  congr 1
  rw [hrest, List.filter_filter]
  apply List.filter_congr
  intro a ha
  simp

/-- C10 (witness): instantiated at the quoted example entries. -/
theorem insert_to_path_idem_witness :
    (':' ∉ ("/a" : String).data) ∧
    insert_to_path (insert_to_path "/b:/c" "/a") "/a" =
      insert_to_path "/b:/c" "/a" :=
  ⟨by decide, insert_to_path_idem "/b:/c" "/a" (by decide)⟩

/-- State of the process environment: maps a variable name to its value when
the variable is set.  Rust `env::var` reads this state; the intercept code
never writes it. -/
abbrev EnvState := String → Option String

/-- Embedding of the `InterceptEnvironment` enum of `intercept/mod.rs`.  The
temporary directory of the Wrapper variant and the preload-library path of
the Preload variant are modelled as UTF-8 path strings; the owned
`collector: CollectorService` handle contributes only its address string to
the computations modelled here, which each variant already records in its
`address` field, so the handle itself is not carried. -/
inductive InterceptEnvironment where
  | Wrapper (bin_dir : String) (address : String)
  | Preload (path : String) (address : String)

/-- Embedding of `InterceptEnvironment::path_to_string`
(`path.to_str().unwrap_or("").to_string()`); on the UTF-8 path strings of
this model the conversion never fails and is the identity. -/
def path_to_string (path : String) : String := path

/-- Embedding of `InterceptEnvironment::environment`, with the process
environment passed as explicit state.  Each `env::var(..)` followed by
`unwrap_or_else` is a read of the state defaulting to the empty string; the
returned state is the process environment after the call, making mutation
(or here, its absence) observable. -/
def environmentS (e : InterceptEnvironment) (σ : EnvState) :
    List (String × String) × EnvState :=
  match e with
  | InterceptEnvironment.Wrapper bin_dir address =>
    let path_original := (σ "PATH").getD ""
    let path_updated := insert_to_path path_original (path_to_string bin_dir)
    ([("PATH", path_updated), (KEY_DESTINATION, address)], σ)
  | InterceptEnvironment.Preload path address =>
    let path_original := (σ KEY_PRELOAD_PATH).getD ""
    let path_updated := insert_to_path path_original (path_to_string path)
    ([(KEY_PRELOAD_PATH, path_updated), (KEY_DESTINATION, address)], σ)

/-- C5: `environment()` returns exactly the overlay pairs of its variant —
for Wrapper the `PATH` value with the temporary directory inserted through
`insert_to_path` plus the collector address under `KEY_DESTINATION`, for
Preload the `LD_PRELOAD` value with the library path inserted the same way
plus the collector address — and leaves the process environment state
unchanged. -/
theorem environment_overlay (σ : EnvState) (bin_dir path address : String) :
    environmentS (InterceptEnvironment.Wrapper bin_dir address) σ =
      ([("PATH", insert_to_path ((σ "PATH").getD "") bin_dir),
        (KEY_DESTINATION, address)], σ) ∧
    environmentS (InterceptEnvironment.Preload path address) σ =
      ([(KEY_PRELOAD_PATH, insert_to_path ((σ KEY_PRELOAD_PATH).getD "") path),
        (KEY_DESTINATION, address)], σ) ∧
    ∀ e : InterceptEnvironment, (environmentS e σ).2 = σ := by
  refine ⟨rfl, rfl, fun e => ?_⟩
  cases e <;> rfl

/-- Modelled from the spec: the `supervise` primitive lives in the
`intercept::supervise` module, which is not part of the embedded source.
Per the spec it runs a command (program, arguments) under an environment
overlay to completion and yields the terminal status, failing only when the
process could not be started.  `Except.ok (some c)` is a reported numeric
exit code, `Except.ok none` a termination without a code (uncaught signal),
and `Except.error` a spawn failure. -/
def SuperviseModel : Type :=
  String → List String → List (String × String) → Except Unit (Option Int)

/-- Rust `ExitCode::from(code as u8)`: the i32 exit code truncated to u8 by
the two-complement cast. -/
def exitCodeFrom (code : Int) : Nat := (code % 256).toNat

/-- Rust `ExitCode::FAILURE` (the generic failure code 1). -/
def FAILURE : Nat := 1

/-- Embedding of `InterceptEnvironment::execute_build_command`: compute the
environment overlay, take the program from `arguments[0]` and the remaining
arguments, supervise, and map the terminal status (code when available,
`FAILURE` otherwise).  The outer `Option` models the panic of the index
expression `input.arguments[0]` — `none` means the call aborts on an empty
argument vector before anything is spawned. -/
def execute_build_command (e : InterceptEnvironment) (σ : EnvState)
    (arguments : List String) (supervise : SuperviseModel) :
    Option (Except Unit Nat) :=
  let environment := (environmentS e σ).1
  match arguments with
  | [] => none
  | process :: rest =>
    match supervise process rest environment with
    | Except.error err => some (Except.error err)
    | Except.ok exit_status =>
      some (Except.ok (match exit_status with
        | some code => exitCodeFrom code
        | none => FAILURE))

/-- C3: with a non-empty argument vector, `execute_build_command` returns
the numeric exit code the OS reports (codes 0–255 map to themselves, and in
particular 3 maps to 3), returns the `FAILURE` sentinel when the child was
terminated without a code (signal), and returns an error exactly when
supervision failed to start the command. -/
theorem execute_build_command_exit_codes (e : InterceptEnvironment)
    (σ : EnvState) (process : String) (rest : List String)
    (sv : SuperviseModel) :
    (∀ code : Int, 0 ≤ code → code < 256 →
      sv process rest (environmentS e σ).1 = Except.ok (some code) →
      execute_build_command e σ (process :: rest) sv =
        some (Except.ok code.toNat)) ∧
    (sv process rest (environmentS e σ).1 = Except.ok none →
      execute_build_command e σ (process :: rest) sv =
        some (Except.ok FAILURE)) ∧
    (∀ err : Unit,
      execute_build_command e σ (process :: rest) sv =
          some (Except.error err) ↔
        sv process rest (environmentS e σ).1 = Except.error err) := by
  refine ⟨fun code h0 h256 hsv => ?_, fun hsv => ?_, fun err => ?_⟩
  · simp [execute_build_command, hsv, exitCodeFrom, Int.emod_eq_of_lt h0 h256]
  · simp [execute_build_command, hsv]
  · cases hsv : sv process rest (environmentS e σ).1 with
    | error e2 => simp [execute_build_command, hsv]
    | ok status => simp [execute_build_command, hsv]

/-- C3 (witness): a supervised command reported with exit code 3 yields
exit code 3. -/
theorem execute_build_command_exit_codes_witness :
    execute_build_command (InterceptEnvironment.Preload "/lib.so" "addr")
      (fun _ => none) ["make"] (fun _ _ _ => Except.ok (some 3)) =
      some (Except.ok (Int.toNat 3)) :=
  (execute_build_command_exit_codes (InterceptEnvironment.Preload "/lib.so"
    "addr") (fun _ => none) "make" [] (fun _ _ _ => Except.ok (some 3))).1 3
    (by decide) (by decide) rfl

/-- C9: `execute_build_command` aborts (models the `arguments[0]` index
panic) on an empty argument vector instead of returning an error value, and
completes with some result on every non-empty argument vector. -/
theorem execute_build_command_empty_args (e : InterceptEnvironment)
    (σ : EnvState) (sv : SuperviseModel) :
    execute_build_command e σ [] sv = none ∧
    ∀ arguments : List String, arguments ≠ [] →
      (execute_build_command e σ arguments sv).isSome = true := by
  refine ⟨rfl, fun arguments h => ?_⟩
  match arguments with
  | [] => exact absurd rfl h
  | process :: rest =>
    cases hsv : sv process rest (environmentS e σ).1 with
    | error e2 => simp [execute_build_command, hsv]
    | ok status => simp [execute_build_command, hsv]

/-- C9 (witness): the empty argument vector aborts, a one-element argument
vector completes. -/
theorem execute_build_command_empty_args_witness :
    execute_build_command (InterceptEnvironment.Preload "/lib.so" "addr")
        (fun _ => none) [] (fun _ _ _ => Except.ok none) = none ∧
      (execute_build_command (InterceptEnvironment.Preload "/lib.so" "addr")
        (fun _ => none) ["make"] (fun _ _ _ => Except.ok none)).isSome =
        true :=
  ⟨(execute_build_command_empty_args (InterceptEnvironment.Preload "/lib.so"
      "addr") (fun _ => none) (fun _ _ _ => Except.ok none)).1,
   (execute_build_command_empty_args (InterceptEnvironment.Preload "/lib.so"
      "addr") (fun _ => none) (fun _ _ _ => Except.ok none)).2 ["make"]
      (by decide)⟩

/-- The observable steps of `CollectorService::drop`: stopping the
collector, joining the network worker, joining the output (processing)
worker. -/
inductive ShutdownAction where
  | stop
  | joinNetwork
  | joinOutput
  deriving DecidableEq

/-- Embedding of the `Drop` implementation of `CollectorService`, run once
when the owner releases the service.  `stopOk` says whether
`collector.stop()` succeeds; `networkThread` and `outputThread` are the two
`Option<JoinHandle>` fields, with the boolean saying whether the join
succeeds.  The result is the ordered list of steps completed when the body
runs to the end; `none` models the process abort of `.expect(..)` on a
failed stop or join, which neither continues with later steps nor returns
an error value. -/
def dropModel (stopOk : Bool) (networkThread outputThread : Option Bool) :
    Option (List ShutdownAction) :=
  if stopOk then
    match networkThread with
    | none =>
      match outputThread with
      | none => some [ShutdownAction.stop]
      | some outputOk =>
        if outputOk then some [ShutdownAction.stop, ShutdownAction.joinOutput]
        else none
    | some networkOk =>
      if networkOk then
        match outputThread with
        | none => some [ShutdownAction.stop, ShutdownAction.joinNetwork]
        | some outputOk =>
          if outputOk then
            some [ShutdownAction.stop, ShutdownAction.joinNetwork,
              ShutdownAction.joinOutput]
          else none
      else none
  else none

/-- C6: on the service a successful construction hands to its owner (both
worker handles present), shutdown performs exactly stop, network-worker
join, processing-worker join in that order; and every completed shutdown
trace is a subsequence of that order, so the processing-worker join never
precedes the network-worker join. -/
theorem drop_shutdown_order :
    dropModel true (some true) (some true) =
      some [ShutdownAction.stop, ShutdownAction.joinNetwork,
        ShutdownAction.joinOutput] ∧
    ∀ (s : Bool) (n o : Option Bool),
      List.Sublist ((dropModel s n o).getD [])
        [ShutdownAction.stop, ShutdownAction.joinNetwork,
          ShutdownAction.joinOutput] := by
  exact ⟨rfl, by decide⟩

/-- C7: the shutdown path aborts — returning no value at all rather than an
error value or a continuation — exactly when `stop()` fails or the join of
either worker thread fails. -/
theorem drop_failures_fatal :
    ∀ (s : Bool) (n o : Option Bool),
      dropModel s n o = none ↔
        (s = false ∨ n = some false ∨ o = some false) := by
  decide

/-- C7 (witness): a failing `stop()` aborts the shutdown. -/
theorem drop_failures_fatal_witness :
    dropModel false (some true) (some true) = none :=
  (drop_failures_fatal false (some true) (some true)).mpr (Or.inl rfl)

/-- Modelled from the spec and the documented behaviour of the OS call: the
filesystem is the list of existing paths, and `std::fs::hard_link(original,
link)` creates the new entry `link` referring to `original`, failing when
`original` does not exist or `link` already exists. -/
def hard_link (fs : List String) (original link : String) :
    Except Unit (List String) :=
  if original ∈ fs ∧ link ∉ fs then Except.ok (link :: fs)
  else Except.error ()

/-- The hard-link loop of Wrapper-mode `InterceptEnvironment::new`, exactly
as the source iterates:
`for executable in executables { std::fs::hard_link(executable, path)?; }`
with `path` the configured shim binary path. -/
def wrapperLinkLoop (path : String) :
    List String → List String → Except Unit (List String)
  | fs, [] => Except.ok fs
  | fs, executable :: rest =>
    match hard_link fs executable path with
    | Except.error err => Except.error err
    | Except.ok fs2 => wrapperLinkLoop path fs2 rest

/-- Wrapper-mode `InterceptEnvironment::new`: create the fresh uniquely
named temporary directory `bin_dir` (a path not yet in the filesystem),
then run the hard-link loop over the configured executables. -/
def interceptNewWrapper (fs : List String) (bin_dir path : String)
    (executables : List String) : Except Unit (List String) :=
  wrapperLinkLoop path (bin_dir :: fs) executables

/-- The `(original, link)` argument pairs of the `hard_link` calls the
Wrapper-mode construction loop issues, in order: each configured executable
is the link source, and the single fixed shim `path` is always the link
destination. -/
def wrapperLinkCalls (path : String) (executables : List String) :
    List (String × String) :=
  executables.map (fun executable => (executable, path))

/-- C2 evaluated on a concrete configuration: the loop links every
configured executable to the one fixed shim path (never to a path inside
the temporary directory), construction fails outright when the shim path
already exists, and even when the shim path does not yet exist the only
entry created is the shim path itself — the temporary directory stays
empty. -/
theorem wrapper_construction_diverges :
    wrapperLinkCalls "/shim" ["/usr/bin/cc", "/usr/bin/c++"] =
      [("/usr/bin/cc", "/shim"), ("/usr/bin/c++", "/shim")] ∧
    interceptNewWrapper ["/shim", "/usr/bin/cc"] "/tmp/bear-0" "/shim"
      ["/usr/bin/cc"] = Except.error () ∧
    interceptNewWrapper ["/usr/bin/cc"] "/tmp/bear-0" "/shim"
      ["/usr/bin/cc"] = Except.ok ["/shim", "/tmp/bear-0", "/usr/bin/cc"] := by
  refine ⟨rfl, ?_, ?_⟩ <;>
    simp [interceptNewWrapper, wrapperLinkLoop, hard_link]

/-- Embedding of `ReporterId` (a newtype over u64). -/
structure ReporterId where
  val : Nat
  deriving DecidableEq

/-- Embedding of `ProcessId` (a newtype over u32). -/
structure ProcessId where
  val : Nat
  deriving DecidableEq

/-- Embedding of `Execution` from `intercept/mod.rs`: the two `PathBuf`
fields are modelled as UTF-8 path strings, and the
`HashMap<String, String>` environment as its entry list in iteration order
(the spec's string-to-string mapping with unique keys); equality of entry
lists implies equality of the maps. -/
structure Execution where
  executable : String
  arguments : List String
  working_dir : String
  environment : List (String × String)
  deriving DecidableEq

/-- Embedding of `Event`: the process id and the execution. -/
structure Event where
  pid : ProcessId
  execution : Execution
  deriving DecidableEq

/-- Embedding of `Envelope`: the reporter id, the timestamp (u64) and the
event. -/
structure Envelope where
  rid : ReporterId
  timestamp : Nat
  event : Event
  deriving DecidableEq

/-- Modelled from the spec: the wire serializer (serde plus the tcp and
persistence modules) is not under the embedded source; the spec leaves the
format opaque but requires a lossless round-trip.  The model serializes
into a token stream following the serde data model: each field in
declaration order, sequences and maps with an explicit length before their
elements. -/
inductive Token where
  | nat (n : Nat)
  | str (s : String)
  deriving DecidableEq

/-- Serialization of an `Execution` into the token stream. -/
def serializeExecution (e : Execution) : List Token :=
  [Token.str e.executable, Token.nat e.arguments.length]
    ++ e.arguments.map Token.str
    ++ [Token.str e.working_dir, Token.nat e.environment.length]
    ++ (e.environment.map (fun kv => [Token.str kv.1, Token.str kv.2])).flatten

/-- Serialization of an `Envelope` into the token stream. -/
def serializeEnvelope (envl : Envelope) : List Token :=
  [Token.nat envl.rid.val, Token.nat envl.timestamp,
    Token.nat envl.event.pid.val]
    ++ serializeExecution envl.event.execution

/-- Read one numeric token. -/
def readNat : List Token → Option (Nat × List Token)
  | Token.nat n :: rest => some (n, rest)
  | _ => none

/-- Read one string token. -/
def readStr : List Token → Option (String × List Token)
  | Token.str s :: rest => some (s, rest)
  | _ => none

/-- Read a counted sequence of strings. -/
def readStrs : Nat → List Token → Option (List String × List Token)
  | 0, ts => some ([], ts)
  | n + 1, ts =>
    match readStr ts with
    | none => none
    | some (s, ts1) =>
      match readStrs n ts1 with
      | none => none
      | some (l, ts2) => some (s :: l, ts2)

/-- Read a counted sequence of string pairs. -/
def readPairs : Nat → List Token → Option (List (String × String) × List Token)
  | 0, ts => some ([], ts)
  | n + 1, ts =>
    match readStr ts with
    | none => none
    | some (k, ts1) =>
      match readStr ts1 with
      | none => none
      | some (v, ts2) =>
        match readPairs n ts2 with
        | none => none
        | some (l, ts3) => some ((k, v) :: l, ts3)

/-- Deserialization of an `Execution` from the token stream, returning the
unread remainder. -/
def deserializeExecution (ts : List Token) : Option (Execution × List Token) :=
  match readStr ts with
  | none => none
  | some (executable, ts1) =>
    match readNat ts1 with
    | none => none
    | some (argc, ts2) =>
      match readStrs argc ts2 with
      | none => none
      | some (arguments, ts3) =>
        match readStr ts3 with
        | none => none
        | some (working_dir, ts4) =>
          match readNat ts4 with
          | none => none
          | some (envc, ts5) =>
            match readPairs envc ts5 with
            | none => none
            | some (environment, ts6) =>
              some (⟨executable, arguments, working_dir, environment⟩, ts6)

/-- Deserialization of an `Envelope`, requiring the stream to be consumed
fully. -/
def deserializeEnvelope (ts : List Token) : Option Envelope :=
  match readNat ts with
  | none => none
  | some (rid, ts1) =>
    match readNat ts1 with
    | none => none
    | some (timestamp, ts2) =>
      match readNat ts2 with
      | none => none
      | some (pid, ts3) =>
        match deserializeExecution ts3 with
        | none => none
        | some (execution, ts4) =>
          match ts4 with
          | [] => some ⟨⟨rid⟩, timestamp, ⟨⟨pid⟩, execution⟩⟩
          | _ => none

theorem readStrs_append (l : List String) (rest : List Token) :
    readStrs l.length (l.map Token.str ++ rest) = some (l, rest) := by
  induction l generalizing rest with
  | nil => rfl
  | cons s t ih => simp [readStrs, readStr, ih]

theorem readPairs_append (l : List (String × String)) (rest : List Token) :
    readPairs l.length
      ((l.map (fun kv => [Token.str kv.1, Token.str kv.2])).flatten ++ rest) =
      some (l, rest) := by
  induction l generalizing rest with
  | nil => rfl
  | cons kv t ih =>
    obtain ⟨k, v⟩ := kv
    simp [readPairs, readStr, ih]

theorem deserializeExecution_serialize (e : Execution) (rest : List Token) :
    deserializeExecution (serializeExecution e ++ rest) = some (e, rest) := by
  obtain ⟨executable, arguments, working_dir, environment⟩ := e
  simp [serializeExecution, deserializeExecution, readStr, readNat,
    readStrs_append, readPairs_append]

/-- C8: serializing any `Envelope` — in particular one whose execution has
an empty argument sequence and an empty environment mapping — and
deserializing the result yields the original `Envelope`. -/
theorem envelope_round_trip (envl : Envelope) :
    deserializeEnvelope (serializeEnvelope envl) = some envl := by
  obtain ⟨⟨rid⟩, timestamp, ⟨⟨pid⟩, execution⟩⟩ := envl
  have h0 : deserializeExecution (serializeExecution execution) =
      some (execution, []) := by
    simpa using deserializeExecution_serialize execution []
  simp [serializeEnvelope, deserializeEnvelope, readNat, h0]

end Bear
